import Mathlib

/-!
Verification of the fraud-graph engine (`src/phase3/fraud_engine.py`).

The Python engine is shallowly embedded: the four input relations become
lists of structures, the NetworkX `MultiDiGraph` becomes an explicit list
of typed edges together with the list of account nodes, and each pipeline
stage (`build_graph`, `_detect_loops`, `compute_scores`, `classify`)
becomes an executable Lean function translated clause by clause from the
source.  Python's `round(x, 1)` (round half to even) is modelled exactly
over `ℚ` by `round1`.
-/

namespace FraudEngine

/-- One row of the `accounts` table. -/
structure Account where
  account_id : String
  type : String
  holder : String
  ring : String
  city : String
deriving DecidableEq

/-- One row of the `identifiers` table. -/
structure IdentifierAssignment where
  account_id : String
  identifier_type : String
  identifier_value : String
deriving DecidableEq

/-- One row of the `touchpoints` table. -/
structure TouchpointAssignment where
  account_id : String
  touchpoint_id : String
deriving DecidableEq

/-- One row of the `transactions` table. -/
structure Transaction where
  txn_id : String
  sender : String
  receiver : String
  amount : Int
  timestamp : Int
deriving DecidableEq

/-- The dict of source tables returned by `get_dataframes()`. -/
structure Dfs where
  accounts : List Account
  identifiers : List IdentifierAssignment
  touchpoints : List TouchpointAssignment
  transactions : List Transaction
deriving DecidableEq

/-- One edge of the `MultiDiGraph`: the `edge_type` discriminant plus the
attributes carried by `money_flow` edges (`none` on `shared_*` edges). -/
structure Edge where
  src : String
  dst : String
  edge_type : String
  amount : Option Int
  timestamp : Option Int
  txn_id : Option String
deriving DecidableEq

/-- The `MultiDiGraph`: account nodes added by `add_node` plus the edge
list; further nodes arise implicitly as edge endpoints, as in NetworkX. -/
structure FraudGraph where
  accountNodes : List Account
  edges : List Edge
deriving DecidableEq

/-- Node set of the graph: nodes added explicitly for accounts plus every
endpoint of an added edge (NetworkX `add_edge` creates missing nodes). -/
def node_ids (G : FraudGraph) : List String :=
  (G.accountNodes.map (·.account_id) ++ G.edges.flatMap (fun e => [e.src, e.dst])).dedup

/-- `FLAG_WEIGHTS` constant of the engine. -/
def FLAG_WEIGHTS : List (String × Nat) :=
  [("shared_device", 30),
   ("shared_ip", 25),
   ("money_received_from_flagged", 20),
   ("money_sent_to_flagged", 20),
   ("shared_touchpoint", 15),
   ("transaction_loop", 40),
   ("high_velocity", 20)]

/-- Weight lookup in `FLAG_WEIGHTS`. -/
def flagWeight (k : String) : Nat := ((FLAG_WEIGHTS.lookup k).getD 0)

/-- `THRESHOLDS` constant: tier label with inclusive lower and upper bound,
in the dictionary's insertion order. -/
def THRESHOLDS : List (String × ℚ × ℚ) :=
  [("CLEAN", (0, 30)),
   ("WATCH", (31, 60)),
   ("SUSPICIOUS", (61, 90)),
   ("BLOCK", (91, 9999))]

/-- `CONTAMINATION_WEIGHT` constant. -/
def CONTAMINATION_WEIGHT : ℚ := 3/10

/-- `classify(score)`: first threshold row with `lo <= score <= hi`,
defaulting to BLOCK. -/
def classify (score : ℚ) : String :=
  match THRESHOLDS.find? (fun t => decide (t.2.1 ≤ score) && decide (score ≤ t.2.2)) with
  | some t => t.1
  | none => "BLOCK"

/-- `itertools.combinations(accs, 2)`: all unordered pairs, in order. -/
def combinations2 {α : Type} : List α → List (α × α)
  | [] => []
  | a :: rest => rest.map (fun b => (a, b)) ++ combinations2 rest

/-- `groupby(identifier_value)["account_id"].apply(list)`: the account-id
lists of each identifier-value group. -/
def groupsByValue (rows : List IdentifierAssignment) : List (List String) :=
  ((rows.map (·.identifier_value)).dedup).map
    (fun v => (rows.filter (fun r => r.identifier_value == v)).map (·.account_id))

/-- `groupby(touchpoint_id)["account_id"].apply(list)`. -/
def groupsByTouchpoint (rows : List TouchpointAssignment) : List (List String) :=
  ((rows.map (·.touchpoint_id)).dedup).map
    (fun v => (rows.filter (fun r => r.touchpoint_id == v)).map (·.account_id))

/-- The symmetric pair of `shared_*` edges added for every 2-combination of
each group. -/
def sharedEdgesFor (t : String) (groups : List (List String)) : List Edge :=
  groups.flatMap (fun accs =>
    (combinations2 accs).flatMap (fun p =>
      [⟨p.1, p.2, t, none, none, none⟩, ⟨p.2, p.1, t, none, none, none⟩]))

/-- `build_graph(dfs)`: account nodes, then shared-IP, shared-device/IMEI,
shared-touchpoint edge pairs, then one money-flow edge per transaction. -/
def build_graph (dfs : Dfs) : FraudGraph :=
  { accountNodes := dfs.accounts
    edges :=
      sharedEdgesFor "shared_ip"
          (groupsByValue (dfs.identifiers.filter (fun r => r.identifier_type == "IP Address"))) ++
      sharedEdgesFor "shared_device"
          (groupsByValue (dfs.identifiers.filter
            (fun r => r.identifier_type == "Device MAC" || r.identifier_type == "IMEI"))) ++
      sharedEdgesFor "shared_touchpoint" (groupsByTouchpoint dfs.touchpoints) ++
      dfs.transactions.map
        (fun t => ⟨t.sender, t.receiver, "money_flow", some t.amount, some t.timestamp, some t.txn_id⟩) }

/-- `set(dfs["accounts"]["account_id"])`, as a duplicate-free list. -/
def account_ids (dfs : Dfs) : List String := (dfs.accounts.map (·.account_id)).dedup

/-- Directed edge list of `money_graph`: money-flow edges whose endpoints
are both account ids. -/
def money_edges (G : FraudGraph) (S : List String) : List (String × String) :=
  (G.edges.filter
      (fun e => e.edge_type == "money_flow" && S.contains e.src && S.contains e.dst)).map
    (fun e => (e.src, e.dst))

/-- All endpoints of an edge list, sources first within each edge. -/
def nodesOfEdges (E : List (String × String)) : List String :=
  E.flatMap (fun e => [e.1, e.2])

/-- Bounded depth-first search for a simple directed cycle: from `cur`,
with `visited` the simple path walked so far from `start`, succeed when an
edge closes back to `start` after at least three nodes. -/
def searchCycle (E : List (String × String)) (start : String) :
    Nat → String → List String → Bool
  | 0, _, _ => false
  | fuel + 1, cur, visited =>
    E.any (fun e =>
      e.1 == cur &&
      ((e.2 == start && decide (3 ≤ visited.length)) ||
       (!visited.contains e.2 && searchCycle E start fuel e.2 (visited ++ [e.2]))))

/-- Account ids lying on some simple directed cycle of ≥ 3 nodes of the
edge list: the node set collected by `nx.simple_cycles` after the
`len(cycle) >= 3` filter. -/
def detect_loops_edges (E : List (String × String)) : List String :=
  ((nodesOfEdges E).dedup).filter
    (fun a => searchCycle E a ((nodesOfEdges E).dedup).length a [a])

/-- `_detect_loops(G, account_ids)`. -/
def detect_loops (G : FraudGraph) (S : List String) : List String :=
  detect_loops_edges (money_edges G S)

/-- A simple directed cycle of the edge list: non-empty, duplicate-free,
consecutive edges present, and an edge closing the last node to the
first. -/
def IsCycle (E : List (String × String)) : List String → Prop
  | [] => False
  | v :: rest => List.Chain (fun x y => (x, y) ∈ E) v (rest ++ [v]) ∧ (v :: rest).Nodup

/-- `G.edges(acc, data=True)`: outgoing edges (self-loops included). -/
def out_edges (G : FraudGraph) (acc : String) : List Edge :=
  G.edges.filter (fun e => e.src == acc)

/-- `G.in_edges(acc, data=True)`. -/
def in_edges (G : FraudGraph) (acc : String) : List Edge :=
  G.edges.filter (fun e => e.dst == acc)

/-- The `etc` counter: occurrences of the edge type over outgoing plus
incoming edges of the account. -/
def etc_count (G : FraudGraph) (acc t : String) : Nat :=
  ((out_edges G acc).filter (fun e => e.edge_type == t)).length +
  ((in_edges G acc).filter (fun e => e.edge_type == t)).length

/-- `in_money`: sources of incoming money-flow edges. -/
def in_money (G : FraudGraph) (acc : String) : List String :=
  ((in_edges G acc).filter (fun e => e.edge_type == "money_flow")).map (·.src)

/-- `out_money`: targets of outgoing money-flow edges. -/
def out_money (G : FraudGraph) (acc : String) : List String :=
  ((out_edges G acc).filter (fun e => e.edge_type == "money_flow")).map (·.dst)

/-- `high_velocity_senders`: senders with at least 3 transactions. -/
def high_velocity_senders (txns : List Transaction) : List String :=
  ((txns.map (·.sender)).dedup).filter
    (fun s => decide (3 ≤ (txns.filter (fun t => t.sender == s)).length))

/-- A fired-flag record `{"flag": ..., "weight": ...}`. -/
structure FlagEntry where
  flag : String
  weight : Nat
deriving DecidableEq

/-- One `if cond: score += w; flags.append(entry)` step of the scorer. -/
def scoreStep (st : Nat × List FlagEntry) (cond : Bool) (e : FlagEntry) : Nat × List FlagEntry :=
  if cond then (st.1 + e.weight, st.2 ++ [e]) else st

/-- The seven flag conditions of `compute_scores`, in source order, each
paired with the entry appended when it fires. -/
def flag_checks (G : FraudGraph) (dfs : Dfs) (acc : String) : List (Bool × FlagEntry) :=
  [(decide (0 < etc_count G acc "shared_ip"),
      ⟨"Shared IP Address", flagWeight "shared_ip"⟩),
   (decide (0 < etc_count G acc "shared_device"),
      ⟨"Shared Device / IMEI", flagWeight "shared_device"⟩),
   (decide (0 < etc_count G acc "shared_touchpoint"),
      ⟨"Shared ATM / Portal", flagWeight "shared_touchpoint"⟩),
   (!(in_money G acc).isEmpty,
      ⟨"Received money (" ++ toString (in_money G acc).length ++ " txn)",
        flagWeight "money_received_from_flagged"⟩),
   (!(out_money G acc).isEmpty,
      ⟨"Sent money (" ++ toString (out_money G acc).length ++ " txn)",
        flagWeight "money_sent_to_flagged"⟩),
   ((detect_loops G (account_ids dfs)).contains acc,
      ⟨"Transaction Loop Detected", flagWeight "transaction_loop"⟩),
   ((high_velocity_senders dfs.transactions).contains acc,
      ⟨"High Velocity Sending", flagWeight "high_velocity"⟩)]

/-- The own-score loop body: fold the seven conditional steps from
`score = 0`, `flags = []`. -/
def own_score_flags (G : FraudGraph) (dfs : Dfs) (acc : String) : Nat × List FlagEntry :=
  (flag_checks G dfs acc).foldl (fun st p => scoreStep st p.1 p.2) (0, [])

/-- `own_scores[acc]`. -/
def own_score (G : FraudGraph) (dfs : Dfs) (acc : String) : Nat :=
  (own_score_flags G dfs acc).1

/-- `flag_details[acc]`. -/
def flag_details (G : FraudGraph) (dfs : Dfs) (acc : String) : List FlagEntry :=
  (own_score_flags G dfs acc).2

/-- The neighbour set: out-edge targets and in-edge sources that are
account ids, deduplicated. -/
def neighbors (G : FraudGraph) (S : List String) (acc : String) : List String :=
  (((out_edges G acc).filter (fun e => S.contains e.dst)).map (·.dst) ++
   ((in_edges G acc).filter (fun e => S.contains e.src)).map (·.src)).dedup

/-- Round half to even at integer precision, as Python's `round`. -/
def rhe (q : ℚ) : ℤ :=
  if q - Rat.floor q < 1/2 then Rat.floor q
  else if 1/2 < q - Rat.floor q then Rat.floor q + 1
  else if Rat.floor q % 2 = 0 then Rat.floor q else Rat.floor q + 1

/-- Python's `round(q, 1)`. -/
def round1 (q : ℚ) : ℚ := (rhe (10 * q) : ℚ) / 10

/-- `contamination`: `round(0.30 * mean(own_score over neighbours), 1)`,
or `0.0` when the neighbour set is empty. -/
def contamination (G : FraudGraph) (dfs : Dfs) (acc : String) : ℚ :=
  if (neighbors G (account_ids dfs) acc).isEmpty then 0
  else
    round1 (CONTAMINATION_WEIGHT *
      (((neighbors G (account_ids dfs) acc).map (fun n => (own_score G dfs n : ℚ))).sum /
        ((neighbors G (account_ids dfs) acc).length : ℚ)))

/-- `final = round(own_scores[acc] + contamination, 1)`. -/
def final_score (G : FraudGraph) (dfs : Dfs) (acc : String) : ℚ :=
  round1 ((own_score G dfs acc : ℚ) + contamination G dfs acc)

/-- The per-account result record of `compute_scores`. -/
structure ScoreRecord where
  account_id : String
  own_score : Nat
  contamination : ℚ
  final_score : ℚ
  classification : String
  flags : List FlagEntry
  in_loop : Bool

/-- `compute_scores(G, dfs)`: one record per account id. -/
def compute_scores (G : FraudGraph) (dfs : Dfs) : List (String × ScoreRecord) :=
  (account_ids dfs).map (fun acc =>
    (acc,
     { account_id := acc
       own_score := own_score G dfs acc
       contamination := contamination G dfs acc
       final_score := final_score G dfs acc
       classification := classify (final_score G dfs acc)
       flags := flag_details G dfs acc
       in_loop := (detect_loops G (account_ids dfs)).contains acc }))

/-- Last element of a list, with a default for the empty list. -/
def lastD {α : Type} : List α → α → α
  | [], d => d
  | a :: l, _ => lastD l a

/-- An account row with the given id and fixed informational fields. -/
def acct (i : String) : Account := ⟨i, "Savings Account", "H", "R", "C"⟩

/-- Two accounts moving money back and forth: A→B and B→A only. -/
def dmBF : Dfs :=
  ⟨[acct "A", acct "B"], [], [],
   [⟨"T1", "A", "B", 100, 1⟩, ⟨"T2", "B", "A", 90, 2⟩]⟩

/-- Three accounts making every flag fire for account A: shared IP, shared
device and shared touchpoint with B, a 3-cycle A→B→C→A, and two further
A→B transfers so that A is the sender of three transactions. -/
def dmAll : Dfs :=
  ⟨[acct "A", acct "B", acct "C"],
   [⟨"A", "IP Address", "V1"⟩, ⟨"B", "IP Address", "V1"⟩,
    ⟨"A", "Device MAC", "M1"⟩, ⟨"B", "Device MAC", "M1"⟩],
   [⟨"A", "TP1"⟩, ⟨"B", "TP1"⟩],
   [⟨"T1", "A", "B", 100, 1⟩, ⟨"T2", "B", "C", 90, 2⟩, ⟨"T3", "C", "A", 80, 3⟩,
    ⟨"T4", "A", "B", 70, 4⟩, ⟨"T5", "A", "B", 60, 5⟩]⟩

/-- A's neighbours are B (shared touchpoint, own score 15) and C (incoming
transfer, own score 20), so the mean own score is 17.5. -/
def dmRound : Dfs :=
  ⟨[acct "A", acct "B", acct "C"], [],
   [⟨"A", "TP1"⟩, ⟨"B", "TP1"⟩],
   [⟨"T1", "C", "A", 100, 1⟩]⟩

/-- A transaction whose receiver "X" is not in the accounts relation. -/
def dmDangling : Dfs :=
  ⟨[acct "A"], [], [], [⟨"T1", "A", "X", 100, 1⟩]⟩

/-- Unknown account ids in every edge-producing position: "W" and "X" as
transaction endpoints, "Y" sharing an IP with A, "Z" sharing a touchpoint
with A; only "A" is in the accounts relation. -/
def dmUnknownShared : Dfs :=
  ⟨[acct "A"],
   [⟨"A", "IP Address", "V1"⟩, ⟨"Y", "IP Address", "V1"⟩],
   [⟨"A", "TP1"⟩, ⟨"Z", "TP1"⟩],
   [⟨"T1", "W", "X", 100, 1⟩]⟩

/-- Unknown account ids "Q" and "P" appearing only in a single, unshared
identifier assignment and touchpoint assignment: no pair exists, so no
edge and no node is created for them. -/
def dmLone : Dfs :=
  ⟨[acct "A"],
   [⟨"Q", "IP Address", "V9"⟩],
   [⟨"P", "TPX"⟩],
   []⟩

/-- A self-referential transaction: A sends to A. -/
def dmSelf : Dfs :=
  ⟨[acct "A"], [], [], [⟨"T1", "A", "A", 100, 1⟩]⟩

/-- A single account with no assignments and no transactions. -/
def dmIso : Dfs := ⟨[acct "A"], [], [], []⟩

/-- Two accounts sharing one IP address. -/
def dmIP : Dfs :=
  ⟨[acct "A", acct "B"],
   [⟨"A", "IP Address", "V1"⟩, ⟨"B", "IP Address", "V1"⟩], [], []⟩

end FraudEngine

namespace FraudEngine

/-- `classify` as an explicit conditional chain. -/
lemma classify_eq (s : ℚ) :
    classify s =
      if 0 ≤ s ∧ s ≤ 30 then "CLEAN"
      else if 31 ≤ s ∧ s ≤ 60 then "WATCH"
      else if 61 ≤ s ∧ s ≤ 90 then "SUSPICIOUS"
      else if 91 ≤ s ∧ s ≤ 9999 then "BLOCK"
      else "BLOCK" := by
  unfold classify THRESHOLDS
  simp only [List.find?]
  by_cases h1 : (0 : ℚ) ≤ s <;> by_cases h2 : s ≤ 30 <;>
    by_cases h3 : (31 : ℚ) ≤ s <;> by_cases h4 : s ≤ 60 <;>
      by_cases h5 : (61 : ℚ) ≤ s <;> by_cases h6 : s ≤ 90 <;>
        by_cases h7 : (91 : ℚ) ≤ s <;> by_cases h8 : s ≤ 9999 <;>
          simp [h1, h2, h3, h4, h5, h6, h7, h8]

lemma lastD_concat {α : Type} (l : List α) (a d : α) : lastD (l ++ [a]) d = a := by
  induction l generalizing d with
  | nil => rfl
  | cons b l ih => simpa [lastD] using ih b

lemma chain_concat_iff {R : String → String → Prop} :
    ∀ (l : List String) (a b : String),
      List.Chain R a (l ++ [b]) ↔ List.Chain R a l ∧ R (lastD l a) b := by
  intro l
  induction l with
  | nil => intro a b; simp [lastD]
  | cons c l ih =>
    intro a b
    simp [List.chain_cons, ih c b, lastD, and_assoc]

lemma isCycle_cons (E : List (String × String)) (v : String) (rest : List String) :
    IsCycle E (v :: rest) ↔
      List.Chain (fun x y => (x, y) ∈ E) v (rest ++ [v]) ∧ (v :: rest).Nodup :=
  Iff.rfl

/-- If the bounded search succeeds from a simple path `start :: rest`
ending at `cur`, that path extends to a simple cycle of at least 3 nodes
through `start`. -/
lemma searchCycle_sound (E : List (String × String)) (start : String) :
    ∀ (fuel : Nat) (rest : List String) (cur : String),
      lastD rest start = cur →
      (start :: rest).Nodup →
      List.Chain (fun x y => (x, y) ∈ E) start rest →
      searchCycle E start fuel cur (start :: rest) = true →
      ∃ ext, IsCycle E (start :: (rest ++ ext)) ∧ 3 ≤ (start :: (rest ++ ext)).length := by
  intro fuel
  induction fuel with
  | zero => intro rest cur _ _ _ h; simp [searchCycle] at h
  | succ fuel ih =>
    intro rest cur hlast hnd hch h
    simp only [searchCycle, List.any_eq_true, Bool.and_eq_true, Bool.or_eq_true,
      beq_iff_eq, decide_eq_true_eq, Bool.not_eq_true'] at h
    obtain ⟨e, heE, hcur, hbranch⟩ := h
    rcases hbranch with ⟨hst, hlen⟩ | ⟨hnotmem, hrec⟩
    · refine ⟨[], ?_, by simpa using hlen⟩
      rw [List.append_nil, isCycle_cons]
      refine ⟨(chain_concat_iff rest start start).mpr ⟨hch, ?_⟩, hnd⟩
      rw [hlast, ← hst, ← hcur]
      simpa using heE
    · have hnotmem' : e.2 ∉ start :: rest := by simpa using hnotmem
      have hnd' : (start :: (rest ++ [e.2])).Nodup := by
        have : ((start :: rest) ++ [e.2]).Nodup := by
          rw [List.nodup_append]
          refine ⟨hnd, List.nodup_singleton _, ?_⟩
          intro x hx hx2
          simp only [List.mem_singleton] at hx2
          exact hnotmem' (hx2 ▸ hx)
        simpa using this
      have hch' : List.Chain (fun x y => (x, y) ∈ E) start (rest ++ [e.2]) := by
        refine (chain_concat_iff rest start e.2).mpr ⟨hch, ?_⟩
        rw [hlast, ← hcur]
        simpa using heE
      have hrec' : searchCycle E start fuel e.2 (start :: (rest ++ [e.2])) = true := by
        simpa using hrec
      obtain ⟨ext, hcyc, hlen3⟩ :=
        ih (rest ++ [e.2]) e.2 (lastD_concat rest e.2 start) hnd' hch' hrec'
      refine ⟨e.2 :: ext, ?_, ?_⟩
      · rwa [List.append_cons rest e.2 ext]
      · rw [List.append_cons rest e.2 ext]
        exact hlen3

/-- If a simple cycle `start :: p` of at least 3 nodes exists, the bounded
search from `start` succeeds given enough fuel. -/
lemma searchCycle_complete (E : List (String × String)) (start : String) (p : List String)
    (hch : List.Chain (fun x y => (x, y) ∈ E) start (p ++ [start]))
    (hlen : 3 ≤ (start :: p).length) :
    ∀ (todo consumed : List String) (fuel : Nat),
      p = consumed ++ todo →
      (start :: p).Nodup →
      todo.length + 1 ≤ fuel →
      searchCycle E start fuel (lastD consumed start) (start :: consumed) = true := by
  intro todo
  induction todo with
  | nil =>
    intro consumed fuel hp hnd hf
    obtain ⟨f, rfl⟩ : ∃ f, fuel = f + 1 := ⟨fuel - 1, by omega⟩
    rw [List.append_nil] at hp
    subst hp
    simp only [searchCycle, List.any_eq_true]
    refine ⟨(lastD p start, start), ?_, ?_⟩
    · exact ((chain_concat_iff p start start).mp hch).2
    · have h2 : 2 ≤ p.length := by simp at hlen; omega
      simp [h2]
  | cons x todo ih =>
    intro consumed fuel hp hnd hf
    obtain ⟨f, rfl⟩ : ∃ f, fuel = f + 1 := ⟨fuel - 1, by omega⟩
    have hsplit : List.Chain (fun x y => (x, y) ∈ E) start (consumed ++ x :: (todo ++ [start])) := by
      rw [hp] at hch
      simpa [List.append_assoc] using hch
    have hstep : (lastD consumed start, x) ∈ E :=
      ((chain_concat_iff consumed start x).mp (List.chain_split.mp hsplit).1).2
    have hxnot : x ∉ start :: consumed := by
      rw [hp] at hnd
      intro hx
      rcases List.mem_cons.mp hx with rfl | hx'
      · have := (List.nodup_cons.mp hnd).1
        simp at this
      · have := (List.nodup_cons.mp hnd).2
        rw [List.nodup_append] at this
        exact this.2.2 hx' (by simp)
    have hrec := ih (consumed ++ [x]) f (by rw [hp, List.append_assoc]; rfl) hnd
      (by simp at hf ⊢; omega)
    rw [lastD_concat] at hrec
    simp only [searchCycle, List.any_eq_true]
    refine ⟨(lastD consumed start, x), hstep, ?_⟩
    simp [hxnot, hrec]

/-- A simple cycle through `a` rotates to a simple cycle starting at `a`
of the same length. -/
lemma isCycle_rotate (E : List (String × String)) (cyc : List String) (a : String)
    (h : IsCycle E cyc) (ha : a ∈ cyc) :
    ∃ rest, IsCycle E (a :: rest) ∧ (a :: rest).length = cyc.length := by
  cases cyc with
  | nil => cases h
  | cons v l =>
    obtain ⟨hch, hnd⟩ := h
    rcases List.mem_cons.mp ha with rfl | hal
    · exact ⟨l, ⟨hch, hnd⟩, rfl⟩
    · obtain ⟨p, q, rfl⟩ := List.append_of_mem hal
      have hperm : (v :: (p ++ a :: q)).Perm (a :: (q ++ v :: p)) := by
        have s1 : (v :: (p ++ a :: q)).Perm (v :: a :: (p ++ q)) := List.perm_middle.cons v
        have s2 : (v :: a :: (p ++ q)).Perm (a :: v :: (p ++ q)) := List.Perm.swap a v _
        have s3 : (a :: v :: (p ++ q)).Perm (a :: v :: (q ++ p)) :=
          (List.perm_append_comm.cons v).cons a
        have s4 : (a :: v :: (q ++ p)).Perm (a :: (q ++ v :: p)) := List.perm_middle.symm.cons a
        exact ((s1.trans s2).trans s3).trans s4
      refine ⟨q ++ v :: p, ⟨?_, hperm.nodup_iff.mp hnd⟩, hperm.length_eq.symm⟩
      have h1 : List.Chain (fun x y => (x, y) ∈ E) v (p ++ a :: (q ++ [v])) := by
        simpa [List.append_assoc] using hch
      have h2 := List.chain_split.mp h1
      have h3 : List.Chain (fun x y => (x, y) ∈ E) a (q ++ v :: (p ++ [a])) :=
        List.chain_split.mpr ⟨h2.2, h2.1⟩
      simpa [List.append_assoc] using h3

/-- The head of a simple cycle has an outgoing edge. -/
lemma isCycle_head_src (E : List (String × String)) (v : String) (rest : List String)
    (h : IsCycle E (v :: rest)) : ∃ y, (v, y) ∈ E := by
  obtain ⟨hch, -⟩ := h
  cases rest with
  | nil => exact ⟨v, (List.chain_cons.mp hch).1⟩
  | cons b l => exact ⟨b, (List.chain_cons.mp hch).1⟩

lemma mem_nodesOfEdges_fst (E : List (String × String)) (x y : String)
    (h : (x, y) ∈ E) : x ∈ nodesOfEdges E := by
  simp only [nodesOfEdges, List.mem_flatMap]
  exact ⟨(x, y), h, by simp⟩

/-- Every node of a simple cycle is a source of some edge. -/
lemma isCycle_subset_nodes (E : List (String × String)) (cyc : List String)
    (h : IsCycle E cyc) : ∀ x ∈ cyc, x ∈ nodesOfEdges E := by
  intro x hx
  obtain ⟨rest, hrot, -⟩ := isCycle_rotate E cyc x h hx
  obtain ⟨y, hy⟩ := isCycle_head_src E x rest hrot
  exact mem_nodesOfEdges_fst E x y hy

lemma length_le_of_nodup_subset (l₁ l₂ : List String) (hnd : l₁.Nodup)
    (hsub : ∀ x ∈ l₁, x ∈ l₂) : l₁.length ≤ l₂.length := by
  calc l₁.length = l₁.toFinset.card := (List.toFinset_card_of_nodup hnd).symm
  _ ≤ l₂.toFinset.card := by
        refine Finset.card_le_card ?_
        intro x hx
        rw [List.mem_toFinset] at hx ⊢
        exact hsub x hx
  _ ≤ l₂.length := List.toFinset_card_le l₂

/-- Characterisation of the computed loop set: exactly the nodes on some
simple directed cycle with at least 3 distinct nodes. -/
lemma mem_detect_loops_edges (E : List (String × String)) (a : String) :
    a ∈ detect_loops_edges E ↔ ∃ cyc, IsCycle E cyc ∧ 3 ≤ cyc.length ∧ a ∈ cyc := by
  unfold detect_loops_edges
  rw [List.mem_filter]
  constructor
  · rintro ⟨hmem, hsearch⟩
    obtain ⟨ext, hcyc, hlen⟩ :=
      searchCycle_sound E a _ [] a rfl (by simp) List.Chain.nil hsearch
    exact ⟨a :: ext, by simpa using hcyc, by simpa using hlen, by simp⟩
  · rintro ⟨cyc, hcyc, hlen, hmem⟩
    obtain ⟨rest, hrot, hleneq⟩ := isCycle_rotate E cyc a hcyc hmem
    have hsub := isCycle_subset_nodes E _ hrot
    obtain ⟨hch, hnd⟩ := hrot
    have hbound : (a :: rest).length ≤ ((nodesOfEdges E).dedup).length :=
      length_le_of_nodup_subset _ _ hnd
        (fun x hx => List.mem_dedup.mpr (hsub x hx))
    refine ⟨List.mem_dedup.mpr (hsub a (by simp)), ?_⟩
    have := searchCycle_complete E a rest hch (by rw [hleneq]; exact hlen) rest [] _ rfl hnd
      (by simpa using hbound)
    simpa [lastD] using this

/-- Membership form of the loop detector on a graph. -/
lemma mem_detect_loops (G : FraudGraph) (S : List String) (a : String) :
    a ∈ detect_loops G S ↔
      ∃ cyc, IsCycle (money_edges G S) cyc ∧ 3 ≤ cyc.length ∧ a ∈ cyc :=
  mem_detect_loops_edges (money_edges G S) a

lemma foldl_scoreStep (l : List (Bool × FlagEntry)) :
    ∀ st : Nat × List FlagEntry,
      ((l.foldl (fun st p => scoreStep st p.1 p.2) st).1
          = st.1 + ((l.filter (·.1)).map (fun p => p.2.weight)).sum) ∧
      ((l.foldl (fun st p => scoreStep st p.1 p.2) st).2
          = st.2 ++ (l.filter (·.1)).map (·.2)) := by
  induction l with
  | nil => intro st; simp
  | cons p l ih =>
    intro st
    cases hp : p.1
    · simpa [scoreStep, hp] using ih st
    · have hstep : scoreStep st p.1 p.2 = (st.1 + p.2.weight, st.2 ++ [p.2]) := by
        simp [scoreStep, hp]
      constructor
      · rw [List.foldl_cons, hstep, (ih _).1]
        simp [List.filter_cons, hp, Nat.add_assoc]
      · rw [List.foldl_cons, hstep, (ih _).2]
        simp [List.filter_cons, hp]

lemma own_score_eq (G : FraudGraph) (dfs : Dfs) (acc : String) :
    own_score G dfs acc
      = (((flag_checks G dfs acc).filter (·.1)).map (fun p => p.2.weight)).sum := by
  simpa [own_score, own_score_flags] using (foldl_scoreStep (flag_checks G dfs acc) (0, [])).1

lemma flag_details_eq (G : FraudGraph) (dfs : Dfs) (acc : String) :
    flag_details G dfs acc = ((flag_checks G dfs acc).filter (·.1)).map (·.2) := by
  simpa [flag_details, own_score_flags] using (foldl_scoreStep (flag_checks G dfs acc) (0, [])).2

lemma flag_checks_weights (G : FraudGraph) (dfs : Dfs) (acc : String) :
    (flag_checks G dfs acc).map (fun p => p.2.weight) = [25, 30, 15, 20, 20, 40, 20] := rfl

lemma sum_filter_le_sum (l : List (Bool × FlagEntry)) :
    ((l.filter (·.1)).map (fun p => p.2.weight)).sum ≤ (l.map (fun p => p.2.weight)).sum := by
  induction l with
  | nil => simp
  | cons p l ih =>
    cases hp : p.1 <;> simp [List.filter_cons, hp] <;> omega

lemma own_score_le (G : FraudGraph) (dfs : Dfs) (acc : String) :
    own_score G dfs acc ≤ 170 := by
  rw [own_score_eq]
  have h := sum_filter_le_sum (flag_checks G dfs acc)
  rw [flag_checks_weights] at h
  simpa using h

lemma own_score_ge_of_check (G : FraudGraph) (dfs : Dfs) (acc : String)
    (p : Bool × FlagEntry) (hp : p ∈ flag_checks G dfs acc) (h1 : p.1 = true) :
    p.2.weight ≤ own_score G dfs acc := by
  rw [own_score_eq]
  exact List.single_le_sum (fun x _ => Nat.zero_le x) _
    (List.mem_map_of_mem _ (List.mem_filter.mpr ⟨hp, h1⟩))

lemma sharedEdgesFor_spec (t : String) (groups : List (List String)) (e : Edge)
    (he : e ∈ sharedEdgesFor t groups) :
    e.edge_type = t ∧ e.amount = none ∧
      (⟨e.dst, e.src, t, none, none, none⟩ : Edge) ∈ sharedEdgesFor t groups := by
  unfold sharedEdgesFor at he
  rw [List.mem_flatMap] at he
  obtain ⟨accs, haccs, he2⟩ := he
  rw [List.mem_flatMap] at he2
  obtain ⟨pr, hpr, he3⟩ := he2
  have hmem : ∀ e' : Edge, e' ∈ [(⟨pr.1, pr.2, t, none, none, none⟩ : Edge),
      ⟨pr.2, pr.1, t, none, none, none⟩] → e' ∈ sharedEdgesFor t groups := by
    intro e' he'
    unfold sharedEdgesFor
    rw [List.mem_flatMap]
    exact ⟨accs, haccs, List.mem_flatMap.mpr ⟨pr, hpr, he'⟩⟩
  simp only [List.mem_cons, List.not_mem_nil, or_false] at he3
  rcases he3 with he3 | he3
  · subst he3
    exact ⟨rfl, rfl, hmem _ (by simp)⟩
  · subst he3
    exact ⟨rfl, rfl, hmem _ (by simp)⟩

/-- Every edge of the built graph carries one of the four edge types. -/
lemma build_graph_edge_type (dfs : Dfs) (e : Edge) (he : e ∈ (build_graph dfs).edges) :
    e.edge_type = "shared_ip" ∨ e.edge_type = "shared_device" ∨
      e.edge_type = "shared_touchpoint" ∨ e.edge_type = "money_flow" := by
  unfold build_graph at he
  simp only [List.mem_append] at he
  rcases he with ((h | h) | h) | h
  · exact Or.inl (sharedEdgesFor_spec _ _ _ h).1
  · exact Or.inr (Or.inl (sharedEdgesFor_spec _ _ _ h).1)
  · exact Or.inr (Or.inr (Or.inl (sharedEdgesFor_spec _ _ _ h).1))
  · rw [List.mem_map] at h
    obtain ⟨t, -, rfl⟩ := h
    exact Or.inr (Or.inr (Or.inr rfl))

lemma etc_count_pos (G : FraudGraph) (b : String) (e : Edge) (he : e ∈ G.edges)
    (hinc : e.src = b ∨ e.dst = b) : 0 < etc_count G b e.edge_type := by
  unfold etc_count out_edges in_edges
  rcases hinc with h | h
  · have hm : e ∈ (G.edges.filter (fun e2 => e2.src == b)).filter
        (fun e2 => e2.edge_type == e.edge_type) := by
      simp [List.mem_filter, he, h]
    have := List.length_pos_of_mem hm
    omega
  · have hm : e ∈ (G.edges.filter (fun e2 => e2.dst == b)).filter
        (fun e2 => e2.edge_type == e.edge_type) := by
      simp [List.mem_filter, he, h]
    have := List.length_pos_of_mem hm
    omega

lemma in_money_ne_nil (G : FraudGraph) (b : String) (e : Edge) (he : e ∈ G.edges)
    (ht : e.edge_type = "money_flow") (hd : e.dst = b) : in_money G b ≠ [] := by
  unfold in_money in_edges
  apply List.ne_nil_of_mem (a := e.src)
  exact List.mem_map_of_mem _ (by simp [List.mem_filter, he, ht, hd])

lemma out_money_ne_nil (G : FraudGraph) (b : String) (e : Edge) (he : e ∈ G.edges)
    (ht : e.edge_type = "money_flow") (hs : e.src = b) : out_money G b ≠ [] := by
  unfold out_money out_edges
  apply List.ne_nil_of_mem (a := e.dst)
  exact List.mem_map_of_mem _ (by simp [List.mem_filter, he, ht, hs])

lemma rat_floor_eq (q : ℚ) : Rat.floor q = ⌊q⌋ := by
  rw [Rat.floor_def', Rat.floor_def]

lemma rhe_intCast (n : ℤ) : rhe (n : ℚ) = n := by
  unfold rhe
  rw [rat_floor_eq, Int.floor_intCast]
  norm_num

lemma rhe_ge (q : ℚ) : q - 1/2 ≤ (rhe q : ℚ) := by
  unfold rhe
  rw [rat_floor_eq]
  have h1 : (⌊q⌋ : ℚ) ≤ q := Int.floor_le q
  have h2 : q < ⌊q⌋ + 1 := Int.lt_floor_add_one q
  split_ifs with c1 c2 c3 <;> push_cast <;> linarith

lemma round1_int_div (m : ℤ) : round1 ((m : ℚ) / 10) = (m : ℚ) / 10 := by
  unfold round1
  rw [show (10 : ℚ) * ((m : ℚ) / 10) = (m : ℚ) by ring, rhe_intCast]

lemma round1_pos (q : ℚ) (h : 9/2 ≤ q) : 0 < round1 q := by
  unfold round1
  have hb := rhe_ge (10 * q)
  exact div_pos (by linarith) (by norm_num)

lemma neighbors_incident (G : FraudGraph) (S : List String) (acc b : String)
    (hb : b ∈ neighbors G S acc) : ∃ e ∈ G.edges, e.src = b ∨ e.dst = b := by
  unfold neighbors at hb
  rw [List.mem_dedup, List.mem_append] at hb
  rcases hb with hb | hb
  · rw [List.mem_map] at hb
    obtain ⟨e, he, rfl⟩ := hb
    rw [List.mem_filter] at he
    have h2 := he.1
    unfold out_edges at h2
    exact ⟨e, (List.mem_filter.mp h2).1, Or.inr rfl⟩
  · rw [List.mem_map] at hb
    obtain ⟨e, he, rfl⟩ := hb
    rw [List.mem_filter] at he
    have h2 := he.1
    unfold in_edges at h2
    exact ⟨e, (List.mem_filter.mp h2).1, Or.inl rfl⟩

/-- Every account incident to an edge of the built graph fires at least
one flag: its own score is at least 15, the smallest flag weight. -/
lemma own_score_ge_15 (dfs : Dfs) (b : String) (e : Edge)
    (he : e ∈ (build_graph dfs).edges) (hinc : e.src = b ∨ e.dst = b) :
    15 ≤ own_score (build_graph dfs) dfs b := by
  rcases build_graph_edge_type dfs e he with ht | ht | ht | ht
  · have hc : 0 < etc_count (build_graph dfs) b "shared_ip" := by
      have := etc_count_pos (build_graph dfs) b e he hinc
      rwa [ht] at this
    have hle := own_score_ge_of_check (build_graph dfs) dfs b
      (decide (0 < etc_count (build_graph dfs) b "shared_ip"),
        ⟨"Shared IP Address", flagWeight "shared_ip"⟩)
      (by simp [flag_checks]) (by simpa using hc)
    have hw : (⟨"Shared IP Address", flagWeight "shared_ip"⟩ : FlagEntry).weight = 25 := rfl
    rw [hw] at hle
    omega
  · have hc : 0 < etc_count (build_graph dfs) b "shared_device" := by
      have := etc_count_pos (build_graph dfs) b e he hinc
      rwa [ht] at this
    have hle := own_score_ge_of_check (build_graph dfs) dfs b
      (decide (0 < etc_count (build_graph dfs) b "shared_device"),
        ⟨"Shared Device / IMEI", flagWeight "shared_device"⟩)
      (by simp [flag_checks]) (by simpa using hc)
    have hw : (⟨"Shared Device / IMEI", flagWeight "shared_device"⟩ : FlagEntry).weight = 30 := rfl
    rw [hw] at hle
    omega
  · have hc : 0 < etc_count (build_graph dfs) b "shared_touchpoint" := by
      have := etc_count_pos (build_graph dfs) b e he hinc
      rwa [ht] at this
    have hle := own_score_ge_of_check (build_graph dfs) dfs b
      (decide (0 < etc_count (build_graph dfs) b "shared_touchpoint"),
        ⟨"Shared ATM / Portal", flagWeight "shared_touchpoint"⟩)
      (by simp [flag_checks]) (by simpa using hc)
    have hw : (⟨"Shared ATM / Portal", flagWeight "shared_touchpoint"⟩ : FlagEntry).weight = 15 := rfl
    rw [hw] at hle
    omega
  · rcases hinc with hs | hd
    · have hne := out_money_ne_nil (build_graph dfs) b e he ht hs
      have hle := own_score_ge_of_check (build_graph dfs) dfs b
        (!(out_money (build_graph dfs) b).isEmpty,
          ⟨"Sent money (" ++ toString (out_money (build_graph dfs) b).length ++ " txn)",
            flagWeight "money_sent_to_flagged"⟩)
        (by simp [flag_checks]) (by simp [hne])
      have hw : (⟨"Sent money (" ++ toString (out_money (build_graph dfs) b).length ++ " txn)",
          flagWeight "money_sent_to_flagged"⟩ : FlagEntry).weight = 20 := rfl
      rw [hw] at hle
      omega
    · have hne := in_money_ne_nil (build_graph dfs) b e he ht hd
      have hle := own_score_ge_of_check (build_graph dfs) dfs b
        (!(in_money (build_graph dfs) b).isEmpty,
          ⟨"Received money (" ++ toString (in_money (build_graph dfs) b).length ++ " txn)",
            flagWeight "money_received_from_flagged"⟩)
        (by simp [flag_checks]) (by simp [hne])
      have hw : (⟨"Received money (" ++ toString (in_money (build_graph dfs) b).length ++ " txn)",
          flagWeight "money_received_from_flagged"⟩ : FlagEntry).weight = 20 := rfl
      rw [hw] at hle
      omega

/-- With a non-empty neighbour set in a built graph, the contamination is
strictly positive. -/
lemma contamination_pos (dfs : Dfs) (acc : String)
    (hne : neighbors (build_graph dfs) (account_ids dfs) acc ≠ []) :
    0 < contamination (build_graph dfs) dfs acc := by
  unfold contamination
  rw [if_neg (by simpa using hne)]
  apply round1_pos
  have hlen : (0 : ℚ) < ((neighbors (build_graph dfs) (account_ids dfs) acc).length : ℚ) := by
    have := List.length_pos.mpr hne
    exact_mod_cast this
  have hsum : ((neighbors (build_graph dfs) (account_ids dfs) acc).length : ℚ) * 15 ≤
      (((neighbors (build_graph dfs) (account_ids dfs) acc).map
        (fun n => (own_score (build_graph dfs) dfs n : ℚ))).sum) := by
    have hall : ∀ x ∈ ((neighbors (build_graph dfs) (account_ids dfs) acc).map
        (fun n => (own_score (build_graph dfs) dfs n : ℚ))), (15 : ℚ) ≤ x := by
      intro x hx
      rw [List.mem_map] at hx
      obtain ⟨n, hn, rfl⟩ := hx
      obtain ⟨e, he, hinc⟩ := neighbors_incident (build_graph dfs) _ acc n hn
      exact_mod_cast own_score_ge_15 dfs n e he hinc
    have := List.card_nsmul_le_sum _ _ hall
    rw [List.length_map] at this
    simpa [nsmul_eq_mul] using this
  have hmean : (15 : ℚ) ≤
      (((neighbors (build_graph dfs) (account_ids dfs) acc).map
          (fun n => (own_score (build_graph dfs) dfs n : ℚ))).sum) /
        ((neighbors (build_graph dfs) (account_ids dfs) acc).length : ℚ) := by
    rw [le_div_iff₀ hlen]
    linarith
  unfold CONTAMINATION_WEIGHT
  linarith

lemma chain_ne_of_nodup : ∀ (l : List String) (v : String), (v :: l).Nodup →
    List.Chain (fun x y => x ≠ y) v l := by
  intro l
  induction l with
  | nil => intro v _; exact List.Chain.nil
  | cons b l ih =>
    intro v hnd
    rw [List.chain_cons]
    constructor
    · intro h
      exact (List.nodup_cons.mp hnd).1 (h ▸ List.mem_cons_self b l)
    · exact ih b (List.nodup_cons.mp hnd).2

lemma chain_and {R S : String → String → Prop} :
    ∀ (l : List String) (a : String), List.Chain R a l → List.Chain S a l →
      List.Chain (fun x y => R x y ∧ S x y) a l := by
  intro l
  induction l with
  | nil => intro a _ _; exact List.Chain.nil
  | cons b l ih =>
    intro a h1 h2
    rw [List.chain_cons] at h1 h2 ⊢
    exact ⟨⟨h1.1, h2.1⟩, ih b h1.2 h2.2⟩

lemma lastD_mem {α : Type} : ∀ (l : List α) (d : α), lastD l d ∈ d :: l := by
  intro l
  induction l with
  | nil => intro d; simp [lastD]
  | cons b l ih =>
    intro d
    exact List.mem_cons_of_mem d (ih b)

/-- A simple cycle of at least 3 nodes never traverses a self-loop, so it
survives removal of self-loop edges. -/
lemma isCycle_filter_self (E : List (String × String)) (cyc : List String)
    (h : IsCycle E cyc) (hlen : 3 ≤ cyc.length) :
    IsCycle (E.filter (fun p => !(p.1 == p.2))) cyc := by
  cases cyc with
  | nil => cases h
  | cons v rest =>
    obtain ⟨hch, hnd⟩ := h
    refine ⟨?_, hnd⟩
    have hne : List.Chain (fun x y => x ≠ y) v (rest ++ [v]) := by
      rw [chain_concat_iff]
      refine ⟨chain_ne_of_nodup rest v hnd, ?_⟩
      cases rest with
      | nil => simp at hlen
      | cons b l =>
        have hmem : lastD (b :: l) v ∈ b :: l := lastD_mem l b
        intro heq
        exact (List.nodup_cons.mp hnd).1 (heq ▸ hmem)
    have hcomb := chain_and _ _ hch hne
    exact List.Chain.imp (fun x y hxy => by
      rw [List.mem_filter]
      exact ⟨hxy.1, by simp [hxy.2]⟩) hcomb

lemma isCycle_of_filter (E : List (String × String)) (f : (String × String) → Bool)
    (cyc : List String) (h : IsCycle (E.filter f) cyc) : IsCycle E cyc := by
  cases cyc with
  | nil => cases h
  | cons v rest =>
    obtain ⟨hch, hnd⟩ := h
    exact ⟨List.Chain.imp (fun x y hxy => (List.mem_filter.mp hxy).1) hch, hnd⟩

/-- Self-loop edges never influence the loop set. -/
lemma detect_loops_edges_filter_self (E : List (String × String)) (a : String) :
    a ∈ detect_loops_edges E ↔
      a ∈ detect_loops_edges (E.filter (fun p => !(p.1 == p.2))) := by
  rw [mem_detect_loops_edges, mem_detect_loops_edges]
  constructor
  · rintro ⟨cyc, hc, hl, hm⟩
    exact ⟨cyc, isCycle_filter_self E cyc hc hl, hl, hm⟩
  · rintro ⟨cyc, hc, hl, hm⟩
    exact ⟨cyc, isCycle_of_filter E _ cyc hc, hl, hm⟩

lemma compute_scores_keys (G : FraudGraph) (dfs : Dfs) :
    (compute_scores G dfs).map Prod.fst = account_ids dfs := by
  unfold compute_scores
  rw [List.map_map]
  exact List.map_id' (account_ids dfs)

lemma money_edge_mem (dfs : Dfs) (t : Transaction) (ht : t ∈ dfs.transactions) :
    (⟨t.sender, t.receiver, "money_flow", some t.amount, some t.timestamp, some t.txn_id⟩ : Edge)
      ∈ (build_graph dfs).edges := by
  unfold build_graph
  exact List.mem_append_right _ (List.mem_map_of_mem _ ht)

lemma mem_node_ids_of_edge (G : FraudGraph) (e : Edge) (he : e ∈ G.edges) :
    e.src ∈ node_ids G ∧ e.dst ∈ node_ids G := by
  unfold node_ids
  constructor <;> rw [List.mem_dedup, List.mem_append] <;> right <;>
    rw [List.mem_flatMap] <;> exact ⟨e, he, by simp⟩

lemma round1_eq_self (q : ℚ) (m : ℤ) (h : q = (m : ℚ) / 10) : round1 q = q := by
  rw [h, round1_int_div]

/-- Two entries appearing in order in a list form one of its
2-combinations. -/
lemma combinations2_mem {α : Type} : ∀ (l : List α) (a b : α),
    List.Sublist [a, b] l → (a, b) ∈ combinations2 l := by
  intro l
  induction l with
  | nil => intro a b h; simp at h
  | cons x rest ih =>
    intro a b h
    simp only [combinations2]
    cases h with
    | cons _ h2 => exact List.mem_append_right _ (ih a b h2)
    | cons₂ _ h2 =>
      exact List.mem_append_left _ (List.mem_map_of_mem _ (h2.subset (by simp)))

/-- Two rows with the same grouping key yield their account ids, in
order, inside the group of that key. -/
lemma mem_groups_pair {α : Type} (key acc : α → String) (rows : List α) (r1 r2 : α)
    (hsub : List.Sublist [r1, r2] rows) (hk : key r2 = key r1) :
    ∃ g ∈ ((rows.map key).dedup).map
        (fun v => (rows.filter (fun r => key r == v)).map acc),
      List.Sublist [acc r1, acc r2] g := by
  refine ⟨(rows.filter (fun r => key r == key r1)).map acc, ?_, ?_⟩
  · apply List.mem_map_of_mem
    rw [List.mem_dedup]
    exact List.mem_map_of_mem _ (hsub.subset (by simp))
  · have h1 : [r1, r2].filter (fun r => key r == key r1) = [r1, r2] := by
      simp [List.filter_cons, hk]
    have h2 := (hsub.filter (fun r => key r == key r1)).map acc
    rw [h1] at h2
    exact h2

/-- Every ordered pair inside a group produces its two symmetric shared
edges. -/
lemma sharedEdgesFor_pair (t : String) (groups : List (List String)) (g : List String)
    (hg : g ∈ groups) (a b : String) (hab : List.Sublist [a, b] g) :
    (⟨a, b, t, none, none, none⟩ : Edge) ∈ sharedEdgesFor t groups ∧
    (⟨b, a, t, none, none, none⟩ : Edge) ∈ sharedEdgesFor t groups := by
  have hp := combinations2_mem g a b hab
  constructor
  · unfold sharedEdgesFor
    rw [List.mem_flatMap]
    exact ⟨g, hg, List.mem_flatMap.mpr ⟨(a, b), hp, by simp⟩⟩
  · unfold sharedEdgesFor
    rw [List.mem_flatMap]
    exact ⟨g, hg, List.mem_flatMap.mpr ⟨(a, b), hp, by simp⟩⟩

/-- The node set is exactly the account nodes plus all edge endpoints. -/
lemma mem_node_ids_iff (G : FraudGraph) (x : String) :
    x ∈ node_ids G ↔
      x ∈ G.accountNodes.map (·.account_id) ∨
        ∃ e ∈ G.edges, e.src = x ∨ e.dst = x := by
  unfold node_ids
  rw [List.mem_dedup, List.mem_append, List.mem_flatMap]
  apply or_congr Iff.rfl
  constructor
  · rintro ⟨e, he, hx⟩
    simp only [List.mem_cons, List.not_mem_nil, or_false] at hx
    rcases hx with rfl | rfl
    · exact ⟨e, he, Or.inl rfl⟩
    · exact ⟨e, he, Or.inr rfl⟩
  · rintro ⟨e, he, h | h⟩ <;> exact ⟨e, he, by simp [h]⟩

/-- C1, counterexample: the claim maps 30.1 to WATCH, but `classify`
returns BLOCK on 30.1, which falls in the gap between the CLEAN and WATCH
intervals. -/
theorem claim1_counterexample : classify (301/10 : ℚ) = "BLOCK" ∧ "BLOCK" ≠ "WATCH" := by
  constructor
  · rw [classify_eq]
    norm_num
  · decide

/-- C1 (amended): for every non-negative score, `classify` returns exactly
one of the four tiers; scores in [0,30] map to CLEAN, [31,60] to WATCH,
[61,90] to SUSPICIOUS, and every other score — including the gaps
(30,31), (60,61), (90,91) and everything above 90 outside [61,90] — maps
to BLOCK. -/
theorem claim1_tier_mapping (s : ℚ) (hs : 0 ≤ s) :
    (s ≤ 30 → classify s = "CLEAN") ∧
    (31 ≤ s ∧ s ≤ 60 → classify s = "WATCH") ∧
    (61 ≤ s ∧ s ≤ 90 → classify s = "SUSPICIOUS") ∧
    (¬ s ≤ 30 ∧ ¬ (31 ≤ s ∧ s ≤ 60) ∧ ¬ (61 ≤ s ∧ s ≤ 90) → classify s = "BLOCK") ∧
    (classify s = "CLEAN" ∨ classify s = "WATCH" ∨ classify s = "SUSPICIOUS" ∨
      classify s = "BLOCK") := by
  rw [classify_eq]
  refine ⟨?_, ?_, ?_, ?_, ?_⟩
  · intro h
    rw [if_pos ⟨hs, h⟩]
  · rintro ⟨h31, h60⟩
    rw [if_neg (fun hc => by linarith [hc.2]), if_pos ⟨h31, h60⟩]
  · rintro ⟨h61, h90⟩
    rw [if_neg (fun hc => by linarith [hc.2]), if_neg (fun hc => by linarith [hc.2]),
      if_pos ⟨h61, h90⟩]
  · rintro ⟨h30, hW, hS⟩
    rw [if_neg (fun hc => h30 hc.2), if_neg hW, if_neg hS]
    split_ifs <;> rfl
  · split_ifs <;> simp

/-- C1, witness: the boundary score 30.0 classifies as CLEAN. -/
theorem claim1_witness : (0 : ℚ) ≤ 30 ∧ classify (30 : ℚ) = "CLEAN" :=
  ⟨by norm_num, (claim1_tier_mapping 30 (by norm_num)).1 (by norm_num)⟩

/-- C2, counterexample: the seven flag weights sum to 170, not 190, and an
account with all seven flags fired scores 170. -/
theorem claim2_counterexample :
    (FLAG_WEIGHTS.map (·.2)).sum = 170 ∧ (FLAG_WEIGHTS.map (·.2)).sum ≠ 190 ∧
    own_score (build_graph dmAll) dmAll "A" = 170 :=
  ⟨by decide, by decide, by decide⟩

/-- C2 (amended): every own score lies in [0, 170]; 170, the sum of all
seven flag weights, is attained exactly when every flag fires. -/
theorem claim2_own_score_range (G : FraudGraph) (dfs : Dfs) (acc : String) :
    own_score G dfs acc ≤ 170 ∧
    ((∀ p ∈ flag_checks G dfs acc, p.1 = true) → own_score G dfs acc = 170) ∧
    (FLAG_WEIGHTS.map (·.2)).sum = 170 := by
  refine ⟨own_score_le G dfs acc, ?_, by decide⟩
  intro hall
  rw [own_score_eq, List.filter_eq_self.mpr hall, flag_checks_weights]
  rfl

/-- C2, witness: on `dmAll` every flag of account A fires and the own
score is exactly 170. -/
theorem claim2_witness :
    (∀ p ∈ flag_checks (build_graph dmAll) dmAll "A", p.1 = true) ∧
    own_score (build_graph dmAll) dmAll "A" = 170 :=
  ⟨by decide, (claim2_own_score_range (build_graph dmAll) dmAll "A").2.1 (by decide)⟩

/-- C3, counterexample: a transaction to the unknown account id "X" does
not fail the pipeline; "X" silently becomes a graph node although it is
not in the accounts relation. -/
theorem claim3_counterexample :
    "X" ∉ account_ids dmDangling ∧ "X" ∈ node_ids (build_graph dmDangling) :=
  ⟨by decide, by decide⟩

/-- C3 (amended): the builder performs no referential-integrity check.
An account id absent from the accounts relation never gets an account
node (so any node it gets is dangling, without account attributes), yet
both endpoints of every transaction, and both account ids of every pair
of identifier-assignment rows sharing a value (of IP type, or of
MAC/IMEI type) and of every pair of touchpoint-assignment rows sharing a
touchpoint, silently become graph nodes; no error is ever raised. -/
theorem claim3_dangling_node (dfs : Dfs) :
    (∀ x, x ∉ account_ids dfs → x ∉ (build_graph dfs).accountNodes.map (·.account_id)) ∧
    (∀ t ∈ dfs.transactions,
      t.sender ∈ node_ids (build_graph dfs) ∧ t.receiver ∈ node_ids (build_graph dfs)) ∧
    (∀ r1 r2 : IdentifierAssignment, List.Sublist [r1, r2] dfs.identifiers →
      r1.identifier_value = r2.identifier_value →
      ((r1.identifier_type = "IP Address" ∧ r2.identifier_type = "IP Address") ∨
       ((r1.identifier_type = "Device MAC" ∨ r1.identifier_type = "IMEI") ∧
        (r2.identifier_type = "Device MAC" ∨ r2.identifier_type = "IMEI"))) →
      r1.account_id ∈ node_ids (build_graph dfs) ∧
        r2.account_id ∈ node_ids (build_graph dfs)) ∧
    (∀ a1 a2 : TouchpointAssignment, List.Sublist [a1, a2] dfs.touchpoints →
      a1.touchpoint_id = a2.touchpoint_id →
      a1.account_id ∈ node_ids (build_graph dfs) ∧
        a2.account_id ∈ node_ids (build_graph dfs)) := by
  refine ⟨?_, ?_, ?_, ?_⟩
  · intro x hx hmem
    exact hx (List.mem_dedup.mpr hmem)
  · intro t ht
    exact mem_node_ids_of_edge _ _ (money_edge_mem dfs t ht)
  · intro r1 r2 hsub hv htypes
    rcases htypes with ⟨h1, h2⟩ | ⟨h1, h2⟩
    · have hsub2 : List.Sublist [r1, r2]
          (dfs.identifiers.filter (fun r => r.identifier_type == "IP Address")) := by
        have h := hsub.filter (fun r => r.identifier_type == "IP Address")
        have heq : [r1, r2].filter (fun r => r.identifier_type == "IP Address") = [r1, r2] := by
          simp [List.filter_cons, h1, h2]
        rwa [heq] at h
      obtain ⟨g, hg, hpair⟩ := mem_groups_pair (fun r => r.identifier_value)
        (fun r => r.account_id) _ r1 r2 hsub2 hv.symm
      have hedge := (sharedEdgesFor_pair "shared_ip"
        (groupsByValue (dfs.identifiers.filter (fun r => r.identifier_type == "IP Address")))
        g hg _ _ hpair).1
      have he1 : (⟨r1.account_id, r2.account_id, "shared_ip", none, none, none⟩ : Edge)
          ∈ (build_graph dfs).edges := by
        unfold build_graph
        exact List.mem_append_left _ (List.mem_append_left _ (List.mem_append_left _ hedge))
      exact (mem_node_ids_of_edge _ _ he1)
    · have hsub2 : List.Sublist [r1, r2] (dfs.identifiers.filter
          (fun r => r.identifier_type == "Device MAC" || r.identifier_type == "IMEI")) := by
        have h := hsub.filter
          (fun r => r.identifier_type == "Device MAC" || r.identifier_type == "IMEI")
        have heq : [r1, r2].filter
            (fun r => r.identifier_type == "Device MAC" || r.identifier_type == "IMEI")
            = [r1, r2] := by
          rcases h1 with h1 | h1 <;> rcases h2 with h2 | h2 <;>
            simp [List.filter_cons, h1, h2]
        rwa [heq] at h
      obtain ⟨g, hg, hpair⟩ := mem_groups_pair (fun r => r.identifier_value)
        (fun r => r.account_id) _ r1 r2 hsub2 hv.symm
      have hedge := (sharedEdgesFor_pair "shared_device"
        (groupsByValue (dfs.identifiers.filter
          (fun r => r.identifier_type == "Device MAC" || r.identifier_type == "IMEI")))
        g hg _ _ hpair).1
      have he1 : (⟨r1.account_id, r2.account_id, "shared_device", none, none, none⟩ : Edge)
          ∈ (build_graph dfs).edges := by
        unfold build_graph
        exact List.mem_append_left _ (List.mem_append_left _ (List.mem_append_right _ hedge))
      exact (mem_node_ids_of_edge _ _ he1)
  · intro a1 a2 hsub hv
    obtain ⟨g, hg, hpair⟩ := mem_groups_pair (fun r => r.touchpoint_id)
      (fun r => r.account_id) _ a1 a2 hsub hv.symm
    have hedge := (sharedEdgesFor_pair "shared_touchpoint"
      (groupsByTouchpoint dfs.touchpoints) g hg _ _ hpair).1
    have he1 : (⟨a1.account_id, a2.account_id, "shared_touchpoint", none, none, none⟩ : Edge)
        ∈ (build_graph dfs).edges := by
      unfold build_graph
      exact List.mem_append_left _ (List.mem_append_right _ hedge)
    exact (mem_node_ids_of_edge _ _ he1)

/-- C3, witness: on `dmUnknownShared`, the unknown transaction sender
"W", the unknown IP-sharing id "Y" and the unknown touchpoint-sharing id
"Z" all become graph nodes carrying no account attributes. -/
theorem claim3_witness :
    ("W" ∈ node_ids (build_graph dmUnknownShared) ∧
      "W" ∉ (build_graph dmUnknownShared).accountNodes.map (·.account_id)) ∧
    ("Y" ∈ node_ids (build_graph dmUnknownShared) ∧
      "Y" ∉ (build_graph dmUnknownShared).accountNodes.map (·.account_id)) ∧
    ("Z" ∈ node_ids (build_graph dmUnknownShared) ∧
      "Z" ∉ (build_graph dmUnknownShared).accountNodes.map (·.account_id)) := by
  obtain ⟨h1, h2, h3, h4⟩ := claim3_dangling_node dmUnknownShared
  refine ⟨⟨?_, h1 "W" (by decide)⟩, ⟨?_, h1 "Y" (by decide)⟩, ⟨?_, h1 "Z" (by decide)⟩⟩
  · exact (h2 ⟨"T1", "W", "X", 100, 1⟩ (by decide)).1
  · exact (h3 ⟨"A", "IP Address", "V1"⟩ ⟨"Y", "IP Address", "V1"⟩ (List.Sublist.refl _) rfl
      (Or.inl ⟨rfl, rfl⟩)).2
  · exact (h4 ⟨"A", "TP1"⟩ ⟨"Z", "TP1"⟩ (List.Sublist.refl _) rfl).2

/-- C4, counterexample: with neighbour own scores 15 and 20 the mean is
17.5, so 0.30 × mean = 5.25, but the stored contamination is the rounded
value 5.2 — contamination does not equal 0.30 × mean. -/
theorem claim4_counterexample :
    contamination (build_graph dmRound) dmRound "A" = 26/5 ∧
    CONTAMINATION_WEIGHT *
        (((neighbors (build_graph dmRound) (account_ids dmRound) "A").map
            (fun n => (own_score (build_graph dmRound) dmRound n : ℚ))).sum /
          ((neighbors (build_graph dmRound) (account_ids dmRound) "A").length : ℚ)) = 21/4 ∧
    (26/5 : ℚ) ≠ 21/4 := by
  have hnb : neighbors (build_graph dmRound) (account_ids dmRound) "A" = ["B", "C"] := by decide
  have hB : own_score (build_graph dmRound) dmRound "B" = 15 := by decide
  have hC : own_score (build_graph dmRound) dmRound "C" = 20 := by decide
  have hmap : (["B", "C"].map (fun n => (own_score (build_graph dmRound) dmRound n : ℚ)))
      = [15, 20] := by
    rw [List.map_cons, List.map_cons, List.map_nil, hB, hC]
    norm_num
  refine ⟨?_, ?_, by norm_num⟩
  · unfold contamination
    rw [hnb, if_neg (by simp), hmap]
    unfold CONTAMINATION_WEIGHT round1 rhe
    rw [rat_floor_eq]
    have hfl : ⌊(10 * ((3 : ℚ)/10 * (([15, 20] : List ℚ).sum / (([("B" : String), "C"]).length : ℚ))))⌋ = 52 := by
      apply Int.floor_eq_iff.mpr
      norm_num
    rw [hfl]
    norm_num
  · rw [hnb, hmap]
    unfold CONTAMINATION_WEIGHT
    norm_num

/-- C4 (amended): contamination is 0.0 for an empty neighbour set and
otherwise the value 0.30 × mean neighbour own score rounded half-to-even
to one decimal; the final score equals own score plus that (rounded)
contamination exactly. -/
theorem claim4_contamination_rounded (G : FraudGraph) (dfs : Dfs) (acc : String) :
    (neighbors G (account_ids dfs) acc = [] → contamination G dfs acc = 0) ∧
    (neighbors G (account_ids dfs) acc ≠ [] →
      contamination G dfs acc =
        round1 (CONTAMINATION_WEIGHT *
          (((neighbors G (account_ids dfs) acc).map (fun n => (own_score G dfs n : ℚ))).sum /
            ((neighbors G (account_ids dfs) acc).length : ℚ)))) ∧
    final_score G dfs acc = (own_score G dfs acc : ℚ) + contamination G dfs acc := by
  refine ⟨?_, ?_, ?_⟩
  · intro h
    unfold contamination
    rw [if_pos (by simp [h])]
  · intro h
    unfold contamination
    rw [if_neg (by simpa using h)]
  · unfold final_score
    by_cases h : (neighbors G (account_ids dfs) acc).isEmpty
    · have hc : contamination G dfs acc = 0 := by
        unfold contamination
        rw [if_pos h]
      rw [hc, add_zero]
      exact round1_eq_self _ (10 * (own_score G dfs acc : ℤ)) (by push_cast; ring)
    · have hc : contamination G dfs acc =
          ((rhe (10 * (CONTAMINATION_WEIGHT *
            (((neighbors G (account_ids dfs) acc).map (fun n => (own_score G dfs n : ℚ))).sum /
              ((neighbors G (account_ids dfs) acc).length : ℚ)))) : ℤ) : ℚ) / 10 := by
        unfold contamination round1
        rw [if_neg h]
      rw [hc]
      apply round1_eq_self _ (10 * (own_score G dfs acc : ℤ) +
        rhe (10 * (CONTAMINATION_WEIGHT *
          (((neighbors G (account_ids dfs) acc).map (fun n => (own_score G dfs n : ℚ))).sum /
            ((neighbors G (account_ids dfs) acc).length : ℚ)))))
      push_cast
      ring

/-- C4, witness: the isolated account of `dmIso` has no neighbours,
contamination 0, and final score equal to own score plus contamination. -/
theorem claim4_witness :
    contamination (build_graph dmIso) dmIso "A" = 0 ∧
    final_score (build_graph dmIso) dmIso "A"
      = (own_score (build_graph dmIso) dmIso "A" : ℚ) + contamination (build_graph dmIso) dmIso "A" :=
  ⟨(claim4_contamination_rounded (build_graph dmIso) dmIso "A").1 (by decide),
   (claim4_contamination_rounded (build_graph dmIso) dmIso "A").2.2⟩

/-- C5: loop membership is exactly membership in some money-flow cycle of
at least three distinct account nodes, and a two-node back-and-forth
(edges only A→B and B→A) yields an empty loop set. -/
theorem claim5_loop_membership :
    (∀ (G : FraudGraph) (S : List String) (a : String),
      a ∈ detect_loops G S ↔
        ∃ cyc, IsCycle (money_edges G S) cyc ∧ 3 ≤ cyc.length ∧ a ∈ cyc) ∧
    (∀ (G : FraudGraph) (S : List String) (x y : String), x ≠ y →
      (∀ p ∈ money_edges G S, p = (x, y) ∨ p = (y, x)) → detect_loops G S = []) := by
  refine ⟨mem_detect_loops, ?_⟩
  intro G S x y hxy hsub
  rw [List.eq_nil_iff_forall_not_mem]
  intro a ha
  rw [mem_detect_loops] at ha
  obtain ⟨cyc, hc, hl, -⟩ := ha
  have hnodes : ∀ z ∈ cyc, z ∈ [x, y] := by
    intro z hz
    obtain ⟨rest, hrot, -⟩ := isCycle_rotate _ cyc z hc hz
    obtain ⟨w, hw⟩ := isCycle_head_src _ z rest hrot
    rcases hsub (z, w) hw with h | h
    · rw [Prod.ext_iff] at h
      exact List.mem_cons.mpr (Or.inl h.1)
    · rw [Prod.ext_iff] at h
      exact List.mem_cons.mpr (Or.inr (List.mem_singleton.mpr h.1))
  have hnd : cyc.Nodup := by
    cases cyc with
    | nil => cases hc
    | cons v rest => exact hc.2
  have hle := length_le_of_nodup_subset cyc [x, y] hnd hnodes
  simp at hle
  omega

/-- C5, witness: the two-account back-and-forth `dmBF` produces an empty
loop set. -/
theorem claim5_witness : detect_loops (build_graph dmBF) (account_ids dmBF) = [] :=
  claim5_loop_membership.2 (build_graph dmBF) (account_ids dmBF) "A" "B" (by decide) (by decide)

/-- C6: the own score equals the sum of the weights of the reported fired
flags; the flag list has one entry per satisfied firing condition, and
every satisfied condition contributes its entry to the list. -/
theorem claim6_own_score_flags (G : FraudGraph) (dfs : Dfs) (acc : String) :
    own_score G dfs acc = ((flag_details G dfs acc).map (fun e => e.weight)).sum ∧
    (flag_details G dfs acc).length = ((flag_checks G dfs acc).filter (·.1)).length ∧
    (∀ p ∈ flag_checks G dfs acc, p.1 = true → p.2 ∈ flag_details G dfs acc) := by
  refine ⟨?_, ?_, ?_⟩
  · rw [own_score_eq, flag_details_eq, List.map_map]
    rfl
  · rw [flag_details_eq, List.length_map]
  · intro p hp h1
    rw [flag_details_eq]
    exact List.mem_map_of_mem _ (List.mem_filter.mpr ⟨hp, h1⟩)

/-- C6, witness: on `dmIP`, A's own score is the sum of its reported flag
weights and the fired shared-IP condition puts its entry in the list. -/
theorem claim6_witness :
    own_score (build_graph dmIP) dmIP "A"
        = ((flag_details (build_graph dmIP) dmIP "A").map (fun e => e.weight)).sum ∧
    (⟨"Shared IP Address", flagWeight "shared_ip"⟩ : FlagEntry)
        ∈ flag_details (build_graph dmIP) dmIP "A" :=
  ⟨(claim6_own_score_flags (build_graph dmIP) dmIP "A").1,
   (claim6_own_score_flags (build_graph dmIP) dmIP "A").2.2
     (decide (0 < etc_count (build_graph dmIP) "A" "shared_ip"),
       ⟨"Shared IP Address", flagWeight "shared_ip"⟩)
     (by decide) (by decide)⟩

/-- C7: every `shared_*` edge of the built graph is reciprocated by an
edge of the same type in the opposite direction. -/
theorem claim7_shared_symmetric (dfs : Dfs) (e : Edge) (he : e ∈ (build_graph dfs).edges)
    (ht : e.edge_type = "shared_ip" ∨ e.edge_type = "shared_device" ∨
      e.edge_type = "shared_touchpoint") :
    ∃ e2 ∈ (build_graph dfs).edges,
      e2.src = e.dst ∧ e2.dst = e.src ∧ e2.edge_type = e.edge_type := by
  unfold build_graph at he ⊢
  simp only [List.mem_append] at he ⊢
  rcases he with ((h | h) | h) | h
  · obtain ⟨hty, -, hsym⟩ := sharedEdgesFor_spec _ _ _ h
    exact ⟨⟨e.dst, e.src, "shared_ip", none, none, none⟩, Or.inl (Or.inl (Or.inl hsym)),
      rfl, rfl, by rw [hty]⟩
  · obtain ⟨hty, -, hsym⟩ := sharedEdgesFor_spec _ _ _ h
    exact ⟨⟨e.dst, e.src, "shared_device", none, none, none⟩, Or.inl (Or.inl (Or.inr hsym)),
      rfl, rfl, by rw [hty]⟩
  · obtain ⟨hty, -, hsym⟩ := sharedEdgesFor_spec _ _ _ h
    exact ⟨⟨e.dst, e.src, "shared_touchpoint", none, none, none⟩, Or.inl (Or.inr hsym),
      rfl, rfl, by rw [hty]⟩
  · rw [List.mem_map] at h
    obtain ⟨t, -, rfl⟩ := h
    rcases ht with h | h | h <;> simp at h

/-- C7, witness: the shared-IP edge A→B of `dmIP` has a reciprocal B→A
edge of the same type. -/
theorem claim7_witness :
    (⟨"A", "B", "shared_ip", none, none, none⟩ : Edge) ∈ (build_graph dmIP).edges ∧
    ∃ e2 ∈ (build_graph dmIP).edges,
      e2.src = "B" ∧ e2.dst = "A" ∧ e2.edge_type = "shared_ip" :=
  ⟨by decide,
   claim7_shared_symmetric dmIP ⟨"A", "B", "shared_ip", none, none, none⟩
     (by decide) (Or.inl rfl)⟩

/-- C8: in a built graph, contamination is 0 exactly when the account has
no account-type neighbours — any neighbour fires at least one flag, making
the rounded contamination strictly positive. -/
theorem claim8_contamination_zero_iff (dfs : Dfs) (acc : String) :
    contamination (build_graph dfs) dfs acc = 0 ↔
      neighbors (build_graph dfs) (account_ids dfs) acc = [] := by
  constructor
  · intro h0
    by_contra hne
    exact absurd h0 (ne_of_gt (contamination_pos dfs acc hne))
  · intro h
    unfold contamination
    rw [if_pos (by simp [h])]

/-- C9, counterexample: the self-referential transaction of `dmSelf` is
not rejected: it contributes a money-flow self-edge, fires both the
received and sent flags (own score 40), and A is still scored. -/
theorem claim9_counterexample :
    (⟨"A", "A", "money_flow", some 100, some 1, some "T1"⟩ : Edge) ∈ (build_graph dmSelf).edges ∧
    own_score (build_graph dmSelf) dmSelf "A" = 40 ∧
    (compute_scores (build_graph dmSelf) dmSelf).map Prod.fst = ["A"] :=
  ⟨by decide, by decide, by decide⟩

/-- C9 (amended): a self-referential transaction is accepted: the builder
adds a money-flow self-edge, the account fires both the received and sent
money flags, while loop detection is unaffected because self-loop edges
never lie on a cycle of three or more distinct nodes. -/
theorem claim9_self_transaction (dfs : Dfs) (t : Transaction) (ht : t ∈ dfs.transactions)
    (_hself : t.sender = t.receiver) :
    (⟨t.sender, t.receiver, "money_flow", some t.amount, some t.timestamp, some t.txn_id⟩ : Edge)
        ∈ (build_graph dfs).edges ∧
    in_money (build_graph dfs) t.receiver ≠ [] ∧
    out_money (build_graph dfs) t.sender ≠ [] ∧
    (∀ (S : List String) (a : String),
      a ∈ detect_loops (build_graph dfs) S ↔
        a ∈ detect_loops_edges
          ((money_edges (build_graph dfs) S).filter (fun p => !(p.1 == p.2)))) := by
  have hmem := money_edge_mem dfs t ht
  exact ⟨hmem, in_money_ne_nil _ _ _ hmem rfl rfl, out_money_ne_nil _ _ _ hmem rfl rfl,
    fun S a => detect_loops_edges_filter_self _ a⟩

/-- C9, witness: the self-transaction of `dmSelf` instantiated. -/
theorem claim9_witness :
    (⟨"A", "A", "money_flow", some 100, some 1, some "T1"⟩ : Edge) ∈ (build_graph dmSelf).edges ∧
    in_money (build_graph dmSelf) "A" ≠ [] ∧
    out_money (build_graph dmSelf) "A" ≠ [] ∧
    ("A" ∈ detect_loops (build_graph dmSelf) (account_ids dmSelf) ↔
      "A" ∈ detect_loops_edges
        ((money_edges (build_graph dmSelf) (account_ids dmSelf)).filter
          (fun p => !(p.1 == p.2)))) := by
  obtain ⟨h1, h2, h3, h4⟩ :=
    claim9_self_transaction dmSelf ⟨"T1", "A", "A", 100, 1⟩ (by decide) rfl
  exact ⟨h1, h2, h3, h4 (account_ids dmSelf) "A"⟩

/-- C10, counterexample: on `dmLone`, the unknown ids "Q" and "P" appear
only in a lone, unshared identifier assignment and touchpoint assignment;
no pair exists, so no edge is created and — contrary to the claim — they
never become graph nodes. -/
theorem claim10_counterexample :
    (⟨"Q", "IP Address", "V9"⟩ : IdentifierAssignment) ∈ dmLone.identifiers ∧
    "Q" ∉ account_ids dmLone ∧
    "Q" ∉ node_ids (build_graph dmLone) ∧
    (⟨"P", "TPX"⟩ : TouchpointAssignment) ∈ dmLone.touchpoints ∧
    "P" ∉ node_ids (build_graph dmLone) := by
  refine ⟨by decide, by decide, by decide, by decide, by decide⟩

/-- C10 (amended): the score table's keys are exactly the (deduplicated)
account ids, each listed account has exactly one record, an id that is
only a graph node never gets a record, and transaction endpoints always
become graph nodes; the node set is exactly the accounts plus the
endpoints of created edges, so an id appearing only in an unshared
assignment gets no node. -/
theorem claim10_score_keys (G : FraudGraph) (dfs : Dfs) :
    (compute_scores G dfs).map Prod.fst = account_ids dfs ∧
    ((compute_scores G dfs).map Prod.fst).Nodup ∧
    (∀ x, x ∈ node_ids (build_graph dfs) → x ∉ account_ids dfs →
      x ∉ (compute_scores G dfs).map Prod.fst) ∧
    (∀ t ∈ dfs.transactions,
      t.sender ∈ node_ids (build_graph dfs) ∧ t.receiver ∈ node_ids (build_graph dfs)) ∧
    (∀ x, x ∈ node_ids (build_graph dfs) ↔
      x ∈ account_ids dfs ∨ ∃ e ∈ (build_graph dfs).edges, e.src = x ∨ e.dst = x) := by
  refine ⟨compute_scores_keys G dfs, ?_, ?_, ?_, ?_⟩
  · rw [compute_scores_keys]
    exact List.nodup_dedup _
  · intro x _ hx
    rw [compute_scores_keys]
    exact hx
  · intro t ht
    exact mem_node_ids_of_edge _ _ (money_edge_mem dfs t ht)
  · intro x
    rw [mem_node_ids_iff]
    apply or_congr ?_ Iff.rfl
    exact (List.mem_dedup).symm

/-- C10, witness: "X" of `dmDangling` is a graph node but receives no
score record. -/
theorem claim10_witness :
    "X" ∈ node_ids (build_graph dmDangling) ∧
    "X" ∉ (compute_scores (build_graph dmDangling) dmDangling).map Prod.fst :=
  ⟨((claim10_score_keys (build_graph dmDangling) dmDangling).2.2.2.1
      ⟨"T1", "A", "X", 100, 1⟩ (by decide)).2,
   (claim10_score_keys (build_graph dmDangling) dmDangling).2.2.1 "X" (by decide) (by decide)⟩

end FraudEngine
